import Mathlib

/-!
Shallow embedding of the `rust-kernel` repository's VGA text-mode driver
(`src/vga_interface.rs`) and freestanding test harness (`src/lib.rs`).

Machine bytes (`u8`) are modelled as `Nat`; the places where the Rust code
performs byte-width arithmetic carry an explicit `% 256`.  The imperative
loops of the driver are embedded as left folds over their index ranges, so
each Lean definition mirrors the corresponding Rust function statement by
statement.  The memory-mapped screen buffer is modelled as a total function
from (row, column) coordinates to cells; volatile access order is irrelevant
in a single-threaded shallow embedding, so reads and writes become function
application and pointwise update.
-/

/-- `VGA_BUFFER_HEIGTH` from `vga_interface.rs` (spelling kept from source). -/
def VGA_BUFFER_HEIGTH : Nat := 25

/-- `VGA_BUFFER_WIDTH` from `vga_interface.rs`. -/
def VGA_BUFFER_WIDTH : Nat := 80

/-- `UNPRINTABLE_CHAR` from `vga_interface.rs`: glyph printed for an
unsupported byte (a ■, code-page 437 code 0xFE). -/
def UNPRINTABLE_CHAR : Nat := 0xfe

/-- The 16 VGA colors (`enum Color` in `vga_interface.rs`). -/
inductive Color where
  | Black | Blue | Green | Cyan | Red | Magenta | Brown | LightGray
  | DarkGray | LightBlue | LightGreen | LightCyan | LightRed | Pink
  | Yellow | White
  deriving DecidableEq, Repr, Fintype

/-- The `repr(u8)` discriminant of each `Color` variant (`Color as u8`). -/
def Color.toCode : Color → Nat
  | .Black => 0x0
  | .Blue => 0x1
  | .Green => 0x2
  | .Cyan => 0x3
  | .Red => 0x4
  | .Magenta => 0x5
  | .Brown => 0x6
  | .LightGray => 0x7
  | .DarkGray => 0x8
  | .LightBlue => 0x9
  | .LightGreen => 0xa
  | .LightCyan => 0xb
  | .LightRed => 0xc
  | .Pink => 0xd
  | .Yellow => 0xe
  | .White => 0xf

/-- `ColorCode` is a `repr(transparent)` wrapper around one byte. -/
abbrev ColorCode := Nat

/-- `ColorCode::new(fg, bg)`: `ColorCode((bg as u8) << 4 | (fg as u8))`.
The shift is 8-bit (`u8`) arithmetic, hence the `% 256`. -/
def ColorCode.new (fg bg : Color) : ColorCode :=
  Nat.lor ((bg.toCode <<< 4) % 256) fg.toCode

/-- `PrintableChar`: one screen cell, a character byte plus a color byte. -/
structure PrintableChar where
  ascii_code : Nat
  color_code : ColorCode
  deriving DecidableEq, Repr

/-- `ScreenBuffer`: the 25 × 80 grid of volatile cells, modelled as a total
function on (row, column).  Only coordinates with `row < 25`, `col < 80` are
ever accessed by the driver. -/
def ScreenBuffer := Nat → Nat → PrintableChar

/-- A single volatile cell write `self.buffer.chars[row][col].write(ch)`. -/
def ScreenBuffer.writeCell (buf : ScreenBuffer) (row col : Nat)
    (ch : PrintableChar) : ScreenBuffer :=
  fun r c => if r = row ∧ c = col then ch else buf r c

/-- `Printer`: cursor column, current color, and the screen buffer. -/
structure Printer where
  col_pos : Nat
  current_color_code : ColorCode
  buffer : ScreenBuffer

/-- `Printer::clear_row`: fill every column of `row` with a blank (`b' '` =
0x20) carrying the printer's current color. -/
def Printer.clear_row (p : Printer) (row : Nat) : Printer :=
  { p with
    buffer := (List.range VGA_BUFFER_WIDTH).foldl
      (fun b col =>
        b.writeCell row col ⟨0x20, p.current_color_code⟩) p.buffer }

/-- `Printer::newline`: for each row 1 ≤ row < 25 copy every cell of `row`
into `row - 1` (row 0 scrolls off the top), then clear the bottom row and
reset the cursor column to 0. -/
def Printer.newline (p : Printer) : Printer :=
  let buf := (List.range' 1 (VGA_BUFFER_HEIGTH - 1)).foldl
    (fun b row =>
      (List.range VGA_BUFFER_WIDTH).foldl
        (fun b2 col => b2.writeCell (row - 1) col (b2 row col)) b) p.buffer
  let p1 := Printer.clear_row { p with buffer := buf } (VGA_BUFFER_HEIGTH - 1)
  { p1 with col_pos := 0 }

/-- `Printer::write_byte`: a newline byte triggers `newline`; any other byte
first triggers `newline` when the cursor has reached the end of the line,
then is stored verbatim at the bottom row at the cursor column, and the
cursor advances by one. -/
def Printer.write_byte (p : Printer) (byte : Nat) : Printer :=
  if byte = 0x0a then p.newline
  else
    let p := if p.col_pos ≥ VGA_BUFFER_WIDTH then p.newline else p
    let row := VGA_BUFFER_HEIGTH - 1
    let col := p.col_pos
    let color_code := p.current_color_code
    { p with
      buffer := p.buffer.writeCell row col ⟨byte, color_code⟩,
      col_pos := p.col_pos + 1 }

/-- `Printer::write_string`: each byte in the printable ASCII range
0x20–0x7E, or the newline byte, is forwarded to `write_byte`; any other
byte is replaced by `UNPRINTABLE_CHAR`.  Every input is accepted. -/
def Printer.write_string (p : Printer) (s : List Nat) : Printer :=
  s.foldl
    (fun p byte =>
      if (0x20 ≤ byte ∧ byte ≤ 0x7e) ∨ byte = 0x0a then p.write_byte byte
      else p.write_byte UNPRINTABLE_CHAR) p

/-- The global `PRINTER` singleton's initial state (the `lazy_static` block):
cursor at column 0, white-on-black color, over whatever cells the VGA memory
holds at startup. -/
def PRINTER_initial (buf : ScreenBuffer) : Printer :=
  { col_pos := 0
    current_color_code := ColorCode.new Color.White Color.Black
    buffer := buf }

/-! ## Test harness (`src/lib.rs`) -/

/-- `QemuExitCode` from `lib.rs`. -/
inductive QemuExitCode where
  | Success
  | Failed
  deriving DecidableEq, Repr

/-- The `repr(u32)` discriminant of each `QemuExitCode` variant. -/
def QemuExitCode.toCode : QemuExitCode → Nat
  | .Success => 0x10
  | .Failed => 0x11

/-- What a test callable does when invoked: returns normally, or panics
with a message (the platform's fatal-fault mechanism). -/
inductive TestOutcome where
  | ok
  | panics (msg : String)
  deriving DecidableEq, Repr

/-- One entry of the test registry: a display name and its behavior. -/
structure TestCase where
  name : String
  outcome : TestOutcome
  deriving DecidableEq, Repr

/-- Observable serial/port events emitted by the harness:
the `>>> Running {n} tests` header, the `  - {name} => ` running marker,
the `ok!` marker, the `TEST FAILED` banner with the fault description
(`test_panic`), and the 4-byte write to the 0xf4 debug-exit port
(`exit_qemu`). -/
inductive HarnessEvent where
  | header (n : Nat)
  | running (name : String)
  | okMarker
  | failBanner (msg : String)
  | exitPort (code : Nat)
  deriving DecidableEq, Repr

/-- The loop of `test_runner` over the registry, as the trace of events it
emits.  `Testable::run` prints the running marker, invokes the callable and
prints `ok!` on normal return; a panic unwinds to the handler, which calls
`test_panic`: the failure banner is printed and `exit_qemu(Failed)` ends
the program, so no later test runs.  After a completed loop `test_runner`
calls `exit_qemu(Success)`. -/
def runTestsLoop : List TestCase → List HarnessEvent
  | [] => [.exitPort (QemuExitCode.toCode .Success)]
  | t :: rest =>
    .running t.name ::
      match t.outcome with
      | .ok => .okMarker :: runTestsLoop rest
      | .panics msg =>
        [.failBanner msg, .exitPort (QemuExitCode.toCode .Failed)]

/-- `test_runner`: header line, then the loop. -/
def test_runner (tests : List TestCase) : List HarnessEvent :=
  .header tests.length :: runTestsLoop tests

/-- Recognizes a running marker (used to count tests started). -/
def HarnessEvent.isRunning : HarnessEvent → Bool
  | .running _ => true
  | _ => false

/-- Recognizes an ok marker (used to count tests that returned). -/
def HarnessEvent.isOk : HarnessEvent → Bool
  | .okMarker => true
  | _ => false

/-- The running/ok marker pairs a list of passing tests contributes to the
trace, in registration order. -/
def okPairs : List TestCase → List HarnessEvent
  | [] => []
  | t :: ts => .running t.name :: .okMarker :: okPairs ts

/-! ## Buffer lemmas: the loops of `clear_row` and `newline` pointwise -/

/-- The `clear_row` loop over columns `[a, a + n)` pointwise. -/
lemma foldl_writeConst_spec (row : Nat) (ch : PrintableChar) :
    ∀ (n a : Nat) (b : ScreenBuffer) (r c : Nat),
      ((List.range' a n).foldl (fun b col => b.writeCell row col ch) b) r c
        = if r = row ∧ a ≤ c ∧ c < a + n then ch else b r c := by
  intro n
  induction n with
  | zero => intro a b r c; simp only [List.range'_zero, List.foldl_nil]; rw [if_neg (by omega)]
  | succ n ih =>
    intro a b r c
    rw [List.range'_succ, List.foldl_cons, ih]
    by_cases hr : r = row
    · subst hr
      by_cases hc1 : a + 1 ≤ c ∧ c < a + 1 + n
      · rw [if_pos ⟨rfl, hc1⟩, if_pos ⟨rfl, by omega, by omega⟩]
      · rw [if_neg (by tauto)]
        unfold ScreenBuffer.writeCell
        by_cases hc2 : c = a
        · subst hc2
          rw [if_pos ⟨rfl, rfl⟩, if_pos ⟨rfl, by omega, by omega⟩]
        · rw [if_neg (by tauto), if_neg (by omega)]
    · rw [if_neg (by tauto), if_neg (by tauto)]
      unfold ScreenBuffer.writeCell
      rw [if_neg (by tauto)]

/-- The inner loop of `newline` (copy row `row` into row `row - 1`) over
columns `[a, a + n)` pointwise, for `1 ≤ row`. -/
lemma foldl_copyRow_spec (row : Nat) (hrow : 1 ≤ row) :
    ∀ (n a : Nat) (b : ScreenBuffer) (r c : Nat),
      ((List.range' a n).foldl
          (fun b2 col => b2.writeCell (row - 1) col (b2 row col)) b) r c
        = if r = row - 1 ∧ a ≤ c ∧ c < a + n then b row c else b r c := by
  intro n
  induction n with
  | zero =>
    intro a b r c
    simp only [List.range'_zero, List.foldl_nil]
    rw [if_neg (by omega)]
  | succ n ih =>
    intro a b r c
    rw [List.range'_succ, List.foldl_cons, ih]
    have hco : ∀ c', (b.writeCell (row - 1) a (b row a)) row c' = b row c' := by
      intro c'
      unfold ScreenBuffer.writeCell
      rw [if_neg (by omega)]
    by_cases hr : r = row - 1
    · subst hr
      by_cases hc1 : a + 1 ≤ c ∧ c < a + 1 + n
      · rw [if_pos ⟨rfl, hc1⟩, hco, if_pos ⟨rfl, by omega, by omega⟩]
      · rw [if_neg (by tauto)]
        unfold ScreenBuffer.writeCell
        by_cases hc2 : c = a
        · subst hc2
          rw [if_pos ⟨rfl, rfl⟩, if_pos ⟨rfl, by omega, by omega⟩]
        · rw [if_neg (by tauto), if_neg (by omega)]
    · rw [if_neg (by tauto), if_neg (by tauto)]
      unfold ScreenBuffer.writeCell
      rw [if_neg (by tauto)]

/-- `foldl_copyRow_spec` specialized to a full-width column loop. -/
lemma foldl_copyRow_range (row : Nat) (hrow : 1 ≤ row) (b : ScreenBuffer)
    (r c : Nat) :
    ((List.range VGA_BUFFER_WIDTH).foldl
        (fun b2 col => b2.writeCell (row - 1) col (b2 row col)) b) r c
      = if r = row - 1 ∧ c < VGA_BUFFER_WIDTH then b row c else b r c := by
  rw [List.range_eq_range', foldl_copyRow_spec row hrow]
  by_cases h : r = row - 1 ∧ c < VGA_BUFFER_WIDTH
  · rw [if_pos ⟨h.1, by omega, by omega⟩, if_pos h]
  · rw [if_neg (by omega), if_neg h]

/-- The outer loop of `newline` over rows `[1, 1 + n)` pointwise: each row
`r < n` ends up holding what row `r + 1` held before, columns `< 80`. -/
lemma foldl_shiftRows_spec :
    ∀ (n : Nat) (b : ScreenBuffer) (r c : Nat),
      ((List.range' 1 n).foldl
          (fun b row =>
            (List.range VGA_BUFFER_WIDTH).foldl
              (fun b2 col => b2.writeCell (row - 1) col (b2 row col)) b) b) r c
        = if r < n ∧ c < VGA_BUFFER_WIDTH then b (r + 1) c else b r c := by
  intro n
  induction n with
  | zero =>
    intro b r c
    simp only [List.range'_zero, List.foldl_nil]
    rw [if_neg (by omega)]
  | succ n ih =>
    intro b r c
    rw [List.range'_concat, List.foldl_append, List.foldl_cons, List.foldl_nil]
    simp only [Nat.one_mul]
    rw [foldl_copyRow_range (1 + n) (by omega)]
    have h1n : 1 + n - 1 = n := by omega
    rw [h1n]
    simp only [ih]
    by_cases hr : r = n
    · subst hr
      by_cases hc : c < VGA_BUFFER_WIDTH
      · rw [if_pos ⟨rfl, hc⟩, if_neg (by omega), if_pos ⟨by omega, hc⟩,
          Nat.add_comm 1 r]
      · rw [if_neg (by tauto), if_neg (by tauto), if_neg (by tauto)]
    · rw [if_neg (by tauto)]
      by_cases hlt : r < n ∧ c < VGA_BUFFER_WIDTH
      · rw [if_pos hlt, if_pos ⟨by omega, hlt.2⟩]
      · rw [if_neg hlt, if_neg (by omega)]

/-! ## Pointwise characterization of the printer operations -/

/-- `clear_row` pointwise: row `row` becomes blanks in the current color,
everything else (cells, cursor, color) is untouched. -/
lemma clear_row_spec (p : Printer) (row : Nat) :
    (p.clear_row row).col_pos = p.col_pos ∧
    (p.clear_row row).current_color_code = p.current_color_code ∧
    ∀ r c, (p.clear_row row).buffer r c
      = if r = row ∧ c < VGA_BUFFER_WIDTH then ⟨0x20, p.current_color_code⟩
        else p.buffer r c := by
  refine ⟨rfl, rfl, fun r c => ?_⟩
  show ((List.range VGA_BUFFER_WIDTH).foldl
    (fun b col => b.writeCell row col ⟨0x20, p.current_color_code⟩)
    p.buffer) r c = _
  rw [List.range_eq_range', foldl_writeConst_spec]
  by_cases h : r = row ∧ c < VGA_BUFFER_WIDTH
  · rw [if_pos ⟨h.1, by omega, by omega⟩, if_pos h]
  · rw [if_neg (by omega), if_neg h]

/-- `newline` pointwise: every row `r < 24` receives row `r + 1`'s old
cells, row 24 becomes blanks in the current color, the cursor returns to
column 0, and the color is unchanged. -/
lemma newline_spec (p : Printer) :
    p.newline.col_pos = 0 ∧
    p.newline.current_color_code = p.current_color_code ∧
    ∀ r c, p.newline.buffer r c
      = if r = VGA_BUFFER_HEIGTH - 1 ∧ c < VGA_BUFFER_WIDTH then
          ⟨0x20, p.current_color_code⟩
        else if r < VGA_BUFFER_HEIGTH - 1 ∧ c < VGA_BUFFER_WIDTH then
          p.buffer (r + 1) c
        else p.buffer r c := by
  refine ⟨rfl, rfl, fun r c => ?_⟩
  show (Printer.clear_row _ (VGA_BUFFER_HEIGTH - 1)).buffer r c = _
  rw [(clear_row_spec _ _).2.2]
  by_cases h24 : r = VGA_BUFFER_HEIGTH - 1 ∧ c < VGA_BUFFER_WIDTH
  · rw [if_pos h24, if_pos h24]
  · rw [if_neg h24, if_neg h24]
    exact foldl_shiftRows_spec (VGA_BUFFER_HEIGTH - 1) p.buffer r c

/-- Writing the newline byte is exactly the `newline` transition. -/
lemma write_byte_newline (p : Printer) : p.write_byte 0x0a = p.newline := by
  simp [Printer.write_byte]

/-- A non-newline byte with the cursor strictly inside the line: one cell
write at the bottom row at the cursor column, cursor advances by one. -/
lemma write_byte_no_wrap (p : Printer) (b : Nat) (hb : b ≠ 0x0a)
    (hc : p.col_pos < VGA_BUFFER_WIDTH) :
    p.write_byte b =
      { p with
        buffer := p.buffer.writeCell (VGA_BUFFER_HEIGTH - 1) p.col_pos
          ⟨b, p.current_color_code⟩,
        col_pos := p.col_pos + 1 } := by
  unfold Printer.write_byte
  rw [if_neg hb, if_neg (by omega)]

/-- A non-newline byte with the cursor at (or past) the end of the line:
the `newline` transition runs first, then the byte lands at column 0 of the
bottom row and the cursor moves to 1. -/
lemma write_byte_wrap (p : Printer) (b : Nat) (hb : b ≠ 0x0a)
    (hc : VGA_BUFFER_WIDTH ≤ p.col_pos) :
    p.write_byte b =
      { p.newline with
        buffer := p.newline.buffer.writeCell (VGA_BUFFER_HEIGTH - 1) 0
          ⟨b, p.current_color_code⟩,
        col_pos := 1 } := by
  unfold Printer.write_byte
  rw [if_neg hb, if_pos (by omega)]
  rfl

/-- Unfolding step of `write_string` on a cons cell. -/
lemma write_string_cons (p : Printer) (b : Nat) (s : List Nat) :
    p.write_string (b :: s) =
      (if (0x20 ≤ b ∧ b ≤ 0x7e) ∨ b = 0x0a then p.write_byte b
       else p.write_byte UNPRINTABLE_CHAR).write_string s := rfl

/-- `write_string` of an empty input is the identity. -/
lemma write_string_nil (p : Printer) : p.write_string [] = p := rfl

/-- After any `write_byte`, the cursor column is at most the line width. -/
lemma write_byte_col_pos_le (p : Printer) (b : Nat) :
    (p.write_byte b).col_pos ≤ VGA_BUFFER_WIDTH := by
  by_cases hb : b = 0x0a
  · subst hb
    rw [write_byte_newline, (newline_spec p).1]
    exact Nat.zero_le _
  · by_cases hc : p.col_pos < VGA_BUFFER_WIDTH
    · rw [write_byte_no_wrap p b hb hc]
      show p.col_pos + 1 ≤ VGA_BUFFER_WIDTH
      omega
    · rw [write_byte_wrap p b hb (by omega)]
      show 1 ≤ VGA_BUFFER_WIDTH
      decide

/-- After any `write_string`, a cursor column that was at most the width
stays at most the width. -/
lemma write_string_col_pos_le :
    ∀ (s : List Nat) (p : Printer), p.col_pos ≤ VGA_BUFFER_WIDTH →
      (p.write_string s).col_pos ≤ VGA_BUFFER_WIDTH := by
  intro s
  induction s with
  | nil => intro p h; rw [write_string_nil]; exact h
  | cons b s' ih =>
    intro p h
    rw [write_string_cons]
    by_cases hcond : (0x20 ≤ b ∧ b ≤ 0x7e) ∨ b = 0x0a
    · rw [if_pos hcond]; exact ih _ (write_byte_col_pos_le p b)
    · rw [if_neg hcond]; exact ih _ (write_byte_col_pos_le p _)

/-- `write_byte` never changes the current color. -/
lemma write_byte_color (p : Printer) (b : Nat) :
    (p.write_byte b).current_color_code = p.current_color_code := by
  by_cases hb : b = 0x0a
  · subst hb; rw [write_byte_newline]; exact (newline_spec p).2.1
  · by_cases hc : p.col_pos < VGA_BUFFER_WIDTH
    · rw [write_byte_no_wrap p b hb hc]
    · rw [write_byte_wrap p b hb (by omega)]
      exact (newline_spec p).2.1

/-- A sequence of printable bytes that fits in the remainder of the line is
laid down verbatim on the bottom row starting at the cursor, with the
current color; the cursor advances by the length; no other cell and not the
color change. -/
lemma write_string_printable_spec :
    ∀ (s : List Nat) (p : Printer),
      (∀ b ∈ s, 0x20 ≤ b ∧ b ≤ 0x7e) →
      p.col_pos + s.length ≤ VGA_BUFFER_WIDTH →
      (p.write_string s).col_pos = p.col_pos + s.length ∧
      (p.write_string s).current_color_code = p.current_color_code ∧
      (∀ r c,
          ¬(r = VGA_BUFFER_HEIGTH - 1 ∧ p.col_pos ≤ c ∧
              c < p.col_pos + s.length) →
          (p.write_string s).buffer r c = p.buffer r c) ∧
      (∀ i, (hi : i < s.length) →
          (p.write_string s).buffer (VGA_BUFFER_HEIGTH - 1) (p.col_pos + i)
            = ⟨s.get ⟨i, hi⟩, p.current_color_code⟩) := by
  intro s
  induction s with
  | nil =>
    intro p hp hl
    exact ⟨rfl, rfl, fun r c h => rfl, fun i hi => absurd hi (by simp)⟩
  | cons b s' ih =>
    intro p hp hl
    have hbp : 0x20 ≤ b ∧ b ≤ 0x7e := hp b (List.mem_cons_self b s')
    have hb10 : b ≠ 0x0a := by omega
    simp only [List.length_cons] at hl
    have hcol : p.col_pos < VGA_BUFFER_WIDTH := by omega
    rw [write_string_cons, if_pos (Or.inl hbp)]
    have hq := write_byte_no_wrap p b hb10 hcol
    have hcol1 : (p.write_byte b).col_pos = p.col_pos + 1 := by rw [hq]
    have hcolor : (p.write_byte b).current_color_code = p.current_color_code := by
      rw [hq]
    have hbuf : ∀ r c, (p.write_byte b).buffer r c
        = if r = VGA_BUFFER_HEIGTH - 1 ∧ c = p.col_pos then
            ⟨b, p.current_color_code⟩
          else p.buffer r c := by
      intro r c; rw [hq]; rfl
    obtain ⟨ih1, ih2, ih3, ih4⟩ :=
      ih (p.write_byte b) (fun x hx => hp x (List.mem_cons_of_mem b hx))
        (by rw [hcol1]; omega)
    refine ⟨?_, ?_, ?_, ?_⟩
    · rw [ih1, hcol1]; simp only [List.length_cons]; omega
    · rw [ih2, hcolor]
    · intro r c hout
      simp only [List.length_cons] at hout
      have h1 : ¬(r = VGA_BUFFER_HEIGTH - 1 ∧ (p.write_byte b).col_pos ≤ c ∧
          c < (p.write_byte b).col_pos + s'.length) := by
        rw [hcol1]; omega
      rw [ih3 r c h1, hbuf, if_neg (by omega)]
    · intro i hi
      match i with
      | 0 =>
        have h1 : ¬(VGA_BUFFER_HEIGTH - 1 = VGA_BUFFER_HEIGTH - 1 ∧
            (p.write_byte b).col_pos ≤ p.col_pos + 0 ∧
            p.col_pos + 0 < (p.write_byte b).col_pos + s'.length) := by
          rw [hcol1]; omega
        rw [ih3 _ _ h1, hbuf, if_pos ⟨rfl, by omega⟩]
        rfl
      | j + 1 =>
        have hj : j < s'.length := by
          simp only [List.length_cons] at hi; omega
        have hidx : p.col_pos + (j + 1) = (p.write_byte b).col_pos + j := by
          rw [hcol1]; omega
        rw [hidx, ih4 j hj, hcolor]
        rfl

/-! ## Harness trace lemmas -/

/-- A registry of all-passing tests yields the ok pairs then the success
exit write. -/
lemma runTestsLoop_all_ok :
    ∀ (ts : List TestCase), (∀ t ∈ ts, t.outcome = .ok) →
      runTestsLoop ts = okPairs ts ++ [.exitPort (QemuExitCode.toCode .Success)] := by
  intro ts
  induction ts with
  | nil => intro _; rfl
  | cons t ts' ih =>
    intro h
    obtain ⟨name, outcome⟩ := t
    have ht : outcome = TestOutcome.ok := h _ (List.mem_cons_self _ _)
    subst ht
    show HarnessEvent.running name :: HarnessEvent.okMarker :: runTestsLoop ts' = _
    rw [ih (fun x hx => h x (List.mem_cons_of_mem _ hx))]
    rfl

/-- A registry whose first faulting test is `t` (everything before passes)
yields the ok pairs of the prefix, the running marker of `t`, the failure
banner, and the failed exit write; nothing of `post` appears. -/
lemma runTestsLoop_fault :
    ∀ (pre : List TestCase) (t : TestCase) (post : List TestCase)
      (msg : String), (∀ x ∈ pre, x.outcome = .ok) →
      t.outcome = .panics msg →
      runTestsLoop (pre ++ t :: post) =
        okPairs pre ++ [.running t.name, .failBanner msg,
          .exitPort (QemuExitCode.toCode .Failed)] := by
  intro pre
  induction pre with
  | nil =>
    intro t post msg _ ht
    obtain ⟨name, outcome⟩ := t
    cases ht
    rfl
  | cons x pre' ih =>
    intro t post msg hpre ht
    obtain ⟨xname, xoutcome⟩ := x
    have hx : xoutcome = TestOutcome.ok := hpre _ (List.mem_cons_self _ _)
    subst hx
    show HarnessEvent.running xname :: HarnessEvent.okMarker ::
      runTestsLoop (pre' ++ t :: post) = _
    rw [ih t post msg (fun y hy => hpre y (List.mem_cons_of_mem _ hy)) ht]
    rfl

/-- Counting running markers in ok pairs: one per test. -/
lemma okPairs_count_running :
    ∀ (ts : List TestCase),
      (okPairs ts).countP HarnessEvent.isRunning = ts.length := by
  intro ts
  induction ts with
  | nil => rfl
  | cons t ts' ih =>
    simp [okPairs, List.countP_cons, HarnessEvent.isRunning, ih]

/-- Counting ok markers in ok pairs: one per test. -/
lemma okPairs_count_ok :
    ∀ (ts : List TestCase),
      (okPairs ts).countP HarnessEvent.isOk = ts.length := by
  intro ts
  induction ts with
  | nil => rfl
  | cons t ts' ih =>
    simp [okPairs, List.countP_cons, HarnessEvent.isOk, ih]

/-! ## Small utilities shared by the claim theorems -/

/-- The height constant evaluates to 25. -/
lemma VGA_H_eq : VGA_BUFFER_HEIGTH = 25 := rfl

/-- The width constant evaluates to 80. -/
lemma VGA_W_eq : VGA_BUFFER_WIDTH = 80 := rfl

/-- Reading a written cell back at the written coordinates. -/
lemma writeCell_at (buf : ScreenBuffer) (row col : Nat) (ch : PrintableChar) :
    buf.writeCell row col ch row col = ch := by
  unfold ScreenBuffer.writeCell
  rw [if_pos ⟨rfl, rfl⟩]

/-- Reading any other cell after a cell write is unchanged. -/
lemma writeCell_other (buf : ScreenBuffer) (row col : Nat)
    (ch : PrintableChar) (r c : Nat) (h : ¬(r = row ∧ c = col)) :
    buf.writeCell row col ch r c = buf r c := by
  unfold ScreenBuffer.writeCell
  rw [if_neg h]

/-- A concrete deterministic screen content used to instantiate theorems. -/
def sampleBuffer : ScreenBuffer := fun r c => ⟨r + c, 7⟩

/-- A concrete printer state used to instantiate theorems. -/
def samplePrinter : Printer :=
  { col_pos := 0, current_color_code := 0x0f, buffer := sampleBuffer }

/-! ## Claims -/

/-- C1: writing the newline byte runs exactly the internal newline
transition, whatever the column: every row `r ∈ [1, 25)` is copied into row
`r - 1` (row 0's old contents are discarded), every cell of row 24 becomes
the blank glyph 0x20 with the current color attribute, and `column_position`
becomes 0. -/
theorem C1_newline_scrolls (p : Printer) :
    p.write_byte 0x0a = p.newline ∧
    p.newline.col_pos = 0 ∧
    (∀ r c, 1 ≤ r → r < 25 → c < 80 →
      p.newline.buffer (r - 1) c = p.buffer r c) ∧
    (∀ c, c < 80 →
      p.newline.buffer 24 c = ⟨0x20, p.current_color_code⟩) := by
  refine ⟨write_byte_newline p, (newline_spec p).1,
    fun r c h1 h2 hc => ?_, fun c hc => ?_⟩
  · rw [(newline_spec p).2.2, VGA_H_eq, VGA_W_eq,
      if_neg (by omega), if_pos (by omega)]
    have hr : r - 1 + 1 = r := by omega
    rw [hr]
  · rw [(newline_spec p).2.2]
    rw [if_pos ⟨rfl, by rw [VGA_W_eq]; omega⟩]

/-- Witness for C1 at a concrete printer state. -/
theorem C1_newline_scrolls_witness :
    samplePrinter.write_byte 0x0a = samplePrinter.newline ∧
    samplePrinter.newline.col_pos = 0 ∧
    samplePrinter.newline.buffer 0 3 = samplePrinter.buffer 1 3 ∧
    samplePrinter.newline.buffer 23 79 = samplePrinter.buffer 24 79 ∧
    samplePrinter.newline.buffer 24 0 =
      ⟨0x20, samplePrinter.current_color_code⟩ := by
  obtain ⟨h1, h2, h3, h4⟩ := C1_newline_scrolls samplePrinter
  exact ⟨h1, h2, h3 1 3 (by decide) (by decide) (by decide),
    h3 24 79 (by decide) (by decide) (by decide), h4 0 (by decide)⟩

/-- C2: a sequence of at most 80 printable bytes written by `write_string`
from column 0 appears verbatim on the bottom row starting at column 0, each
cell carrying the current color attribute, and `column_position` ends equal
to the count written. -/
theorem C2_printable_row_verbatim (p : Printer) (s : List Nat)
    (h0 : p.col_pos = 0) (hp : ∀ b ∈ s, 0x20 ≤ b ∧ b ≤ 0x7e)
    (hl : s.length ≤ 80) :
    (p.write_string s).col_pos = s.length ∧
    ∀ i, (hi : i < s.length) →
      (p.write_string s).buffer 24 i
        = ⟨s.get ⟨i, hi⟩, p.current_color_code⟩ := by
  obtain ⟨ha, _, _, hd⟩ := write_string_printable_spec s p hp
    (by rw [h0, VGA_W_eq]; omega)
  constructor
  · rw [ha, h0, Nat.zero_add]
  · intro i hi
    have := hd i hi
    rw [h0, Nat.zero_add] at this
    exact this

/-- Witness for C2: writing "Hi" from column 0. -/
theorem C2_printable_row_verbatim_witness :
    (samplePrinter.write_string [0x48, 0x69]).col_pos = 2 ∧
    (samplePrinter.write_string [0x48, 0x69]).buffer 24 0 = ⟨0x48, 0x0f⟩ ∧
    (samplePrinter.write_string [0x48, 0x69]).buffer 24 1 = ⟨0x69, 0x0f⟩ := by
  obtain ⟨h1, h2⟩ := C2_printable_row_verbatim samplePrinter [0x48, 0x69]
    rfl (by decide) (by decide)
  exact ⟨h1, h2 0 (by decide), h2 1 (by decide)⟩

/-- C3: from column 0, after exactly 80 printable bytes one further
printable byte triggers exactly one scroll: apart from cell (24, 0) the
whole screen equals the single-`newline` result (so the previously-bottom
row now sits at row 23), the extra byte lands at column 0 of the bottom row,
and `column_position` is 1.  The overflow test `col_pos >= width` fires
before the character write. -/
theorem C3_overflow_single_scroll (p : Printer) (s : List Nat) (b : Nat)
    (h0 : p.col_pos = 0) (hp : ∀ x ∈ s, 0x20 ≤ x ∧ x ≤ 0x7e)
    (hl : s.length = 80) (hb : 0x20 ≤ b ∧ b ≤ 0x7e) :
    (∀ r c, ¬(r = 24 ∧ c = 0) →
      ((p.write_string s).write_byte b).buffer r c
        = (p.write_string s).newline.buffer r c) ∧
    (∀ c, c < 80 →
      ((p.write_string s).write_byte b).buffer 23 c
        = (p.write_string s).buffer 24 c) ∧
    ((p.write_string s).write_byte b).buffer 24 0
      = ⟨b, p.current_color_code⟩ ∧
    ((p.write_string s).write_byte b).col_pos = 1 := by
  obtain ⟨hqcol, hqcolor, _, _⟩ := write_string_printable_spec s p hp
    (by rw [h0, VGA_W_eq]; omega)
  rw [h0, hl, Nat.zero_add] at hqcol
  have hb10 : b ≠ 0x0a := by omega
  have hwrap := write_byte_wrap (p.write_string s) b hb10
    (by rw [hqcol, VGA_W_eq])
  have hframe : ∀ r c, ¬(r = 24 ∧ c = 0) →
      ((p.write_string s).write_byte b).buffer r c
        = (p.write_string s).newline.buffer r c := by
    intro r c hrc
    rw [hwrap]
    exact writeCell_other (p.write_string s).newline.buffer
      (VGA_BUFFER_HEIGTH - 1) 0 ⟨b, (p.write_string s).current_color_code⟩
      r c hrc
  refine ⟨hframe, fun c hc => ?_, ?_, ?_⟩
  · rw [hframe 23 c (by omega), (newline_spec (p.write_string s)).2.2,
      VGA_H_eq, VGA_W_eq, if_neg (by omega), if_pos (by omega)]
  · rw [hwrap, ← hqcolor]
    exact writeCell_at (p.write_string s).newline.buffer
      (VGA_BUFFER_HEIGTH - 1) 0 ⟨b, (p.write_string s).current_color_code⟩
  · rw [hwrap]

/-- Witness for C3: 80 copies of 'A' then a 'B'. -/
theorem C3_overflow_single_scroll_witness :
    ((samplePrinter.write_string (List.replicate 80 0x41)).write_byte
        0x42).buffer 24 0 = ⟨0x42, 0x0f⟩ ∧
    ((samplePrinter.write_string (List.replicate 80 0x41)).write_byte
        0x42).buffer 23 0
      = (samplePrinter.write_string (List.replicate 80 0x41)).buffer 24 0 ∧
    ((samplePrinter.write_string (List.replicate 80 0x41)).write_byte
        0x42).col_pos = 1 := by
  obtain ⟨h1, h2, h3, h4⟩ := C3_overflow_single_scroll samplePrinter
    (List.replicate 80 0x41) 0x42 rfl (by decide) (by decide) (by decide)
  exact ⟨h3, h2 0 (by decide), h4⟩

/-- C4: `column_position` starts at 0 in the global printer, stays in
`[0, 80]` under every operation, decreases only through the `newline`
transition (a newline byte, or the overflow check at a full line), and the
overflow comparison happens before the character write: below column 80 a
write advances the cursor by exactly one, with no scroll interposed. -/
theorem C4_col_pos_invariant (p : Printer) (b : Nat) (s : List Nat)
    (buf : ScreenBuffer) (h : p.col_pos ≤ 80) :
    (PRINTER_initial buf).col_pos = 0 ∧
    (p.write_byte b).col_pos ≤ 80 ∧
    p.newline.col_pos = 0 ∧
    (p.write_string s).col_pos ≤ 80 ∧
    ((p.write_byte b).col_pos < p.col_pos → b = 0x0a ∨ p.col_pos = 80) ∧
    (b ≠ 0x0a → p.col_pos < 80 →
      (p.write_byte b).col_pos = p.col_pos + 1) := by
  refine ⟨rfl, write_byte_col_pos_le p b, (newline_spec p).1,
    write_string_col_pos_le s p (by rw [VGA_W_eq]; omega), ?_, ?_⟩
  · intro hdec
    by_cases hb : b = 0x0a
    · exact Or.inl hb
    · by_cases hc : p.col_pos < VGA_BUFFER_WIDTH
      · exfalso
        have hone : (p.write_byte b).col_pos = p.col_pos + 1 := by
          rw [write_byte_no_wrap p b hb hc]
        omega
      · rw [VGA_W_eq] at hc
        exact Or.inr (by omega)
  · intro hb hc
    rw [write_byte_no_wrap p b hb (by rw [VGA_W_eq]; omega)]

/-- Witness for C4 at a concrete state and byte. -/
theorem C4_col_pos_invariant_witness :
    (PRINTER_initial sampleBuffer).col_pos = 0 ∧
    (samplePrinter.write_byte 0x41).col_pos ≤ 80 ∧
    samplePrinter.newline.col_pos = 0 ∧
    (samplePrinter.write_string [0x41, 0x42]).col_pos ≤ 80 ∧
    ((samplePrinter.write_byte 0x41).col_pos < samplePrinter.col_pos →
      (0x41 : Nat) = 0x0a ∨ samplePrinter.col_pos = 80) ∧
    ((0x41 : Nat) ≠ 0x0a → samplePrinter.col_pos < 80 →
      (samplePrinter.write_byte 0x41).col_pos = samplePrinter.col_pos + 1) := by
  exact C4_col_pos_invariant samplePrinter 0x41 [0x41, 0x42] sampleBuffer
    (by decide)

/-- C5: for all 16 × 16 color pairs, the packed attribute byte equals
`(background << 4) | foreground`, and decomposing it as
`(byte & 0x0F, byte >> 4)` recovers the pair exactly. -/
theorem C5_color_roundtrip :
    ∀ fg bg : Color,
      ColorCode.new fg bg = Nat.lor (bg.toCode <<< 4) fg.toCode ∧
      Nat.land (ColorCode.new fg bg) 0x0f = fg.toCode ∧
      (ColorCode.new fg bg) >>> 4 = bg.toCode := by decide

/-- C6: a byte that is neither printable nor newline is substituted by
`write_string` with the unprintable glyph 0xFE: the glyph (not the input
byte) is stored, the cursor still advances by one, and no input is
rejected — the remaining bytes are processed as usual. -/
theorem C6_unprintable_substitution (p : Printer) (b : Nat)
    (rest : List Nat) (hb : ¬(0x20 ≤ b ∧ b ≤ 0x7e)) (hn : b ≠ 0x0a)
    (hc : p.col_pos < 80) :
    p.write_string (b :: rest)
      = (p.write_byte UNPRINTABLE_CHAR).write_string rest ∧
    (p.write_byte UNPRINTABLE_CHAR).buffer 24 p.col_pos
      = ⟨UNPRINTABLE_CHAR, p.current_color_code⟩ ∧
    (p.write_byte UNPRINTABLE_CHAR).col_pos = p.col_pos + 1 := by
  have hw := write_byte_no_wrap p UNPRINTABLE_CHAR (by decide)
    (by rw [VGA_W_eq]; omega)
  refine ⟨?_, ?_, ?_⟩
  · rw [write_string_cons, if_neg (fun h => h.elim hb hn)]
  · rw [hw]
    exact writeCell_at p.buffer (VGA_BUFFER_HEIGTH - 1) p.col_pos
      ⟨UNPRINTABLE_CHAR, p.current_color_code⟩
  · rw [hw]

/-- Witness for C6 with the byte 0x01. -/
theorem C6_unprintable_substitution_witness :
    samplePrinter.write_string [0x01]
      = (samplePrinter.write_byte UNPRINTABLE_CHAR).write_string [] ∧
    (samplePrinter.write_byte UNPRINTABLE_CHAR).buffer 24 0
      = ⟨UNPRINTABLE_CHAR, 0x0f⟩ ∧
    (samplePrinter.write_byte UNPRINTABLE_CHAR).col_pos = 1 := by
  exact C6_unprintable_substitution samplePrinter 0x01 [] (by decide)
    (by decide) (by decide)

/-- C7: when the tests before `t` pass and `t` faults, the harness trace is
the header, one running/ok pair per passed test, the running marker of `t`,
one failure banner with the fault description, and the exit-port write of
the fixed failed code 0x11; the running-marker count is the number of tests
started and nothing of the registry after `t` runs. -/
theorem C7_fault_stops_suite (pre : List TestCase) (t : TestCase)
    (post : List TestCase) (msg : String)
    (hpre : ∀ x ∈ pre, x.outcome = .ok) (ht : t.outcome = .panics msg) :
    test_runner (pre ++ t :: post) =
      .header (pre ++ t :: post).length ::
        (okPairs pre ++ [.running t.name, .failBanner msg,
          .exitPort (QemuExitCode.toCode .Failed)]) ∧
    (test_runner (pre ++ t :: post)).countP HarnessEvent.isRunning
      = pre.length + 1 ∧
    (test_runner (pre ++ t :: post)).countP HarnessEvent.isOk
      = pre.length ∧
    QemuExitCode.toCode .Failed = 0x11 := by
  have htrace := runTestsLoop_fault pre t post msg hpre ht
  have hrunner : test_runner (pre ++ t :: post) =
      .header (pre ++ t :: post).length ::
        (okPairs pre ++ [.running t.name, .failBanner msg,
          .exitPort (QemuExitCode.toCode .Failed)]) := by
    unfold test_runner
    rw [htrace]
  refine ⟨hrunner, ?_, ?_, rfl⟩
  · rw [hrunner]
    simp [List.countP_cons, List.countP_append, okPairs_count_running,
      HarnessEvent.isRunning]
  · rw [hrunner]
    simp [List.countP_cons, List.countP_append, okPairs_count_ok,
      HarnessEvent.isOk]

/-- Witness for C7: three tests, the second faults. -/
theorem C7_fault_stops_suite_witness :
    test_runner [⟨"t1", .ok⟩, ⟨"t2", .panics "boom"⟩, ⟨"t3", .ok⟩] =
      [.header 3, .running "t1", .okMarker, .running "t2",
        .failBanner "boom", .exitPort 0x11] ∧
    (test_runner [⟨"t1", .ok⟩, ⟨"t2", .panics "boom"⟩,
        ⟨"t3", .ok⟩]).countP HarnessEvent.isRunning = 2 ∧
    (test_runner [⟨"t1", .ok⟩, ⟨"t2", .panics "boom"⟩,
        ⟨"t3", .ok⟩]).countP HarnessEvent.isOk = 1 := by
  obtain ⟨h1, h2, h3, _⟩ := C7_fault_stops_suite
    [⟨"t1", .ok⟩] ⟨"t2", .panics "boom"⟩ [⟨"t3", .ok⟩] "boom"
    (by intro x hx; simp at hx; rw [hx]) rfl
  exact ⟨h1, h2, h3⟩

/-- C8: when every test returns normally, the harness emits the header,
one running/ok pair per entry in registration order, and then the
exit-port write with the fixed success code 0x10 (the failed code being
0x11). -/
theorem C8_all_ok_success_exit (tests : List TestCase)
    (h : ∀ t ∈ tests, t.outcome = .ok) :
    test_runner tests =
      .header tests.length ::
        (okPairs tests ++ [.exitPort (QemuExitCode.toCode .Success)]) ∧
    (test_runner tests).countP HarnessEvent.isRunning = tests.length ∧
    (test_runner tests).countP HarnessEvent.isOk = tests.length ∧
    QemuExitCode.toCode .Success = 0x10 ∧
    QemuExitCode.toCode .Failed = 0x11 := by
  have hrunner : test_runner tests =
      .header tests.length ::
        (okPairs tests ++ [.exitPort (QemuExitCode.toCode .Success)]) := by
    unfold test_runner
    rw [runTestsLoop_all_ok tests h]
  refine ⟨hrunner, ?_, ?_, rfl, rfl⟩
  · rw [hrunner]
    simp [List.countP_cons, List.countP_append, okPairs_count_running,
      HarnessEvent.isRunning]
  · rw [hrunner]
    simp [List.countP_cons, List.countP_append, okPairs_count_ok,
      HarnessEvent.isOk]

/-- Witness for C8: two passing tests. -/
theorem C8_all_ok_success_exit_witness :
    test_runner [⟨"t1", .ok⟩, ⟨"t2", .ok⟩] =
      [.header 2, .running "t1", .okMarker, .running "t2", .okMarker,
        .exitPort 0x10] ∧
    (test_runner [⟨"t1", .ok⟩, ⟨"t2", .ok⟩]).countP
      HarnessEvent.isRunning = 2 ∧
    (test_runner [⟨"t1", .ok⟩, ⟨"t2", .ok⟩]).countP
      HarnessEvent.isOk = 2 := by
  obtain ⟨h1, h2, h3, _, _⟩ := C8_all_ok_success_exit
    [⟨"t1", .ok⟩, ⟨"t2", .ok⟩]
    (by intro x hx; simp at hx; rcases hx with h | h <;> rw [h])
  exact ⟨h1, h2, h3⟩

/-- C9: `write_byte` stores any non-newline byte verbatim — no printability
filtering — while `write_string` is where an unprintable byte is replaced
by the 0xFE glyph before reaching `write_byte`. -/
theorem C9_write_byte_unfiltered (p : Printer) (b : Nat)
    (hb : b ≠ 0x0a) (hc : p.col_pos < 80) :
    (p.write_byte b).buffer 24 p.col_pos = ⟨b, p.current_color_code⟩ ∧
    (¬(0x20 ≤ b ∧ b ≤ 0x7e) →
      p.write_string [b] = p.write_byte UNPRINTABLE_CHAR) := by
  constructor
  · rw [write_byte_no_wrap p b hb (by rw [VGA_W_eq]; omega)]
    exact writeCell_at p.buffer (VGA_BUFFER_HEIGTH - 1) p.col_pos
      ⟨b, p.current_color_code⟩
  · intro hnp
    rw [write_string_cons, if_neg (fun h => h.elim hnp hb), write_string_nil]

/-- Witness for C9 with the unprintable byte 0x05. -/
theorem C9_write_byte_unfiltered_witness :
    (samplePrinter.write_byte 0x05).buffer 24 0 = ⟨0x05, 0x0f⟩ ∧
    samplePrinter.write_string [0x05]
      = samplePrinter.write_byte UNPRINTABLE_CHAR := by
  obtain ⟨h1, h2⟩ := C9_write_byte_unfiltered samplePrinter 0x05
    (by decide) (by decide)
  exact ⟨h1, h2 (by decide)⟩

/-- C10: below column 80, writing a non-newline byte touches exactly the
bottom-row cell at the cursor column; every other cell and the current
color attribute are unchanged, and the cursor advances by one. -/
theorem C10_write_byte_frame (p : Printer) (b : Nat)
    (hb : b ≠ 0x0a) (hc : p.col_pos < 80) :
    (p.write_byte b).buffer 24 p.col_pos = ⟨b, p.current_color_code⟩ ∧
    (∀ r c, ¬(r = 24 ∧ c = p.col_pos) →
      (p.write_byte b).buffer r c = p.buffer r c) ∧
    (p.write_byte b).current_color_code = p.current_color_code ∧
    (p.write_byte b).col_pos = p.col_pos + 1 := by
  have hw := write_byte_no_wrap p b hb (by rw [VGA_W_eq]; omega)
  refine ⟨?_, fun r c hrc => ?_, ?_, ?_⟩
  · rw [hw]
    exact writeCell_at p.buffer (VGA_BUFFER_HEIGTH - 1) p.col_pos
      ⟨b, p.current_color_code⟩
  · rw [hw]
    exact writeCell_other p.buffer (VGA_BUFFER_HEIGTH - 1) p.col_pos
      ⟨b, p.current_color_code⟩ r c hrc
  · rw [hw]
  · rw [hw]

/-- Witness for C10 with the byte 0x42. -/
theorem C10_write_byte_frame_witness :
    (samplePrinter.write_byte 0x42).buffer 24 0 = ⟨0x42, 0x0f⟩ ∧
    (samplePrinter.write_byte 0x42).buffer 3 7 = samplePrinter.buffer 3 7 ∧
    (samplePrinter.write_byte 0x42).buffer 24 1 = samplePrinter.buffer 24 1 ∧
    (samplePrinter.write_byte 0x42).current_color_code = 0x0f ∧
    (samplePrinter.write_byte 0x42).col_pos = 1 := by
  obtain ⟨h1, h2, h3, h4⟩ := C10_write_byte_frame samplePrinter 0x42
    (by decide) (by decide)
  exact ⟨h1, h2 3 7 (by decide), h2 24 1 (by decide), h3, h4⟩
